import Mathlib

/-!
Verification of `ops/scripts/deploy_agents.py`.

The script provisions one git worktree + branch per task and drives a tmux
session with one window (two panes) per task; a `destroy` subcommand tears
everything down.  We embed the script as a pure transition system: the
observable external world is an `ExtState` (existing branches, worktree
directories, tmux sessions), every subprocess invocation becomes a `Call`
event appended to a trace, and both entry points are total functions from
configuration, task list and initial state to a trace plus an outcome.

External command semantics assumed by the model (standard git/tmux
behaviour, and the only failure modes the script's control flow can hit):
`git show-ref --verify` succeeds exactly when the branch exists;
`git worktree add -b` succeeds when branch and directory are absent (the
script only issues it under that guard); `tmux new-session -s NAME` exits
non-zero when a session called NAME already exists, which under
`subprocess.run(..., check=True)` raises and aborts the run.
-/

namespace DA

/-- `string.ascii_lowercase`, the identifier alphabet (line 15). -/
def letters : List Char := "abcdefghijklmnopqrstuvwxyz".data

/-- `get_letter` (lines 14-18): `letters[i]`, with `none` modelling the
`ValueError` raised when `i >= len(letters)`. -/
def get_letter (i : Nat) : Option Char :=
  if h : i < letters.length then some (letters.get ⟨i, h⟩) else none

/-- Branch name as built on line 39 of the deploy loop:
`f"{args.branch_prefix}/{a}/{task}"`. -/
def branchNameD (bp : String) (a : Char) (task : String) : String :=
  bp ++ "/" ++ String.singleton a ++ "/" ++ task

/-- Worktree directory name as built on line 40 (and again on line 82):
`f"{repo}__{args.branch_prefix}-{a}-{task}"`. -/
def wtDirNameD (repo bp : String) (a : Char) (task : String) : String :=
  repo ++ "__" ++ bp ++ "-" ++ String.singleton a ++ "-" ++ task

/-- Full worktree path `wt_root / name` (lines 40/82), with `pathlib`'s `/`
rendered as a `/`-separated string join. -/
def wtDirPathD (wtRoot repo bp : String) (a : Char) (task : String) : String :=
  wtRoot ++ "/" ++ wtDirNameD repo bp a task

/-- Window name as built on line 83: `f"{args.branch_prefix}/{a}/{task}"`. -/
def winNameD (bp : String) (a : Char) (task : String) : String :=
  bp ++ "/" ++ String.singleton a ++ "/" ++ task

/-- Branch name as rebuilt on line 140 of the destroy loop. -/
def branchNameX (bp : String) (a : Char) (task : String) : String :=
  bp ++ "/" ++ String.singleton a ++ "/" ++ task

/-- Worktree path as rebuilt on line 141 of the destroy loop. -/
def wtDirPathX (wtRoot repo bp : String) (a : Char) (task : String) : String :=
  wtRoot ++ "/" ++ (repo ++ "__" ++ bp ++ "-" ++ String.singleton a ++ "-" ++ task)

/-- Naming scheme as the spec words it (section 3): branch name
`"{branchPrefix}/{agentLetter}/{task}"`.  Kept separate from the
source-derived `branchNameD` so the two can be compared. -/
def specBranchName (bp : String) (a : Char) (task : String) : String :=
  bp ++ "/" ++ String.singleton a ++ "/" ++ task

/-- Naming scheme as the spec words it (section 3): workspace path
`"{worktreeRoot}/{project}__{branchPrefix}-{agentLetter}-{task}"`. -/
def specWorkspacePath (wtRoot project bp : String) (a : Char) (task : String) : String :=
  wtRoot ++ "/" ++ project ++ "__" ++ bp ++ "-" ++ String.singleton a ++ "-" ++ task

/-- Python `branch.replace('/', '-')` (line 69); for a one-character pattern
this is the character-wise replacement. -/
def pyReplaceSlashDash (s : String) : String :=
  String.map (fun ch => if ch = '/' then '-' else ch) s

/-- One external invocation issued by the script (subprocess call or print). -/
inductive Call where
  | mkdirRoot (dir : String)
  | showRef (branch : String)
  | worktreeAddNew (branch dir startPoint : String)
  | worktreeAddExisting (branch dir : String)
  | submoduleUpdate (dir : String)
  | configName (dir name : String)
  | configEmail (dir email : String)
  | worktreeRemove (dir : String)
  | branchDelete (branch : String)
  | hasSession (s : String)
  | newSession (s dir : String)
  | killSession (s : String)
  | renameWindow (s : String) (idx : Nat) (nm : String)
  | newWindow (s nm dir : String)
  | sendKeys (s : String) (win : Nat) (pane : Option Nat) (keys : String)
  | splitWindow (s : String) (win : Nat) (dir : String)
  | attachSession (s : String)
  | echo (msg : String)
  deriving DecidableEq

/-- Calls that mutate state owned by the version-control adapter. -/
def Call.isMutVC : Call → Bool
  | .worktreeAddNew _ _ _ => true
  | .worktreeAddExisting _ _ => true
  | .submoduleUpdate _ => true
  | .configName _ _ => true
  | .configEmail _ _ => true
  | .worktreeRemove _ => true
  | .branchDelete _ => true
  | _ => false

def Call.isNewSession : Call → Bool
  | .newSession _ _ => true
  | _ => false

def Call.isNewWindow : Call → Bool
  | .newWindow _ _ _ => true
  | _ => false

def Call.isBranchDelete : Call → Bool
  | .branchDelete _ => true
  | _ => false

/-- Does a version-control mutating call operate on branch `b`? -/
def Call.usesBranchVC (b : String) : Call → Bool
  | .worktreeAddNew b' _ _ => b' = b
  | .worktreeAddExisting b' _ => b' = b
  | .branchDelete b' => b' = b
  | _ => false

/-- Does a version-control mutating call operate on worktree directory `d`? -/
def Call.usesDirVC (d : String) : Call → Bool
  | .worktreeAddNew _ d' _ => d' = d
  | .worktreeAddExisting _ d' => d' = d
  | .submoduleUpdate d' => d' = d
  | .configName d' _ => d' = d
  | .configEmail d' _ => d' = d
  | .worktreeRemove d' => d' = d
  | _ => false

/-- Observable external state: existing branches, worktree directories and
tmux sessions.  (`wt_root` itself is created with `exist_ok=True` and is not
tracked: only the per-task worktree paths matter to the script's checks.) -/
structure ExtState where
  branches : List String
  dirs : List String
  sessions : List String
  deriving DecidableEq

/-- Configuration of the `deploy` subcommand (lines 178-188), after
`--base`/`--wt-root` resolution; `bp` is `--branch-prefix`. -/
structure DeployCfg where
  repo : String
  bp : String
  wtRoot : String
  sessionArg : Option String
  startCodex : Bool
  codexPrompt : String
  emailDomain : String
  deriving DecidableEq

/-- `session = args.session or repo` (lines 28/117): Python `or` falls back
to the repo name when `--session` is absent or the empty string. -/
def sessionNameOf (sessionArg : Option String) (repo : String) : String :=
  match sessionArg with
  | none => repo
  | some s => if s = "" then repo else s

/-- Per-task body of the creation loop (lines 37-69).  `none` models the
`ValueError` from `get_letter`.  The `returncode` of the branch check is
captured once (line 42) and consulted twice (lines 47 and 57), exactly as in
the source; the second consultation picks between the two `git worktree add`
forms. -/
def deployTask (c : DeployCfg) (i : Nat) (task : String) (st : ExtState) :
    Option (List Call × ExtState) :=
  match get_letter i with
  | none => none
  | some a =>
    let branch := branchNameD c.bp a task
    let wtDir := wtDirPathD c.wtRoot c.repo c.bp a task
    let branchExists : Bool := branch ∈ st.branches
    if branchExists then
      some ([Call.showRef branch], st)
    else if wtDir ∈ st.dirs then
      some ([Call.showRef branch], st)
    else
      let addCall := if branchExists then Call.worktreeAddExisting branch wtDir
                     else Call.worktreeAddNew branch wtDir "HEAD"
      let st' : ExtState :=
        if branchExists then ⟨st.branches, wtDir :: st.dirs, st.sessions⟩
        else ⟨branch :: st.branches, wtDir :: st.dirs, st.sessions⟩
      some ([Call.showRef branch, addCall, Call.submoduleUpdate wtDir,
             Call.configName wtDir branch,
             Call.configEmail wtDir (pyReplaceSlashDash branch ++ "@" ++ c.emailDomain)],
            st')

/-- The creation loop over the enumerated task list (lines 37-69); a `none`
from `deployTask` aborts the run, keeping the calls already issued. -/
def deployLoop1 (c : DeployCfg) (i : Nat) (tasks : List String) (st : ExtState) :
    List Call × Option ExtState :=
  match tasks with
  | [] => ([], some st)
  | t :: ts =>
    match deployTask c i t st with
    | none => ([], none)
    | some (calls, st') =>
      let rest := deployLoop1 c (i + 1) ts st'
      (calls ++ rest.1, rest.2)

/-- tmux calls issued for the window of task `i` (lines 80-101): the first
task renames the session's initial window, the rest create new windows; each
window is split once horizontally, and the optional codex bootstrap targets
pane index 1 (the right pane). -/
def windowCalls (c : DeployCfg) (s : String) (i : Nat) (task : String) :
    Option (List Call) :=
  (get_letter i).map fun a =>
    let wtDir := wtDirPathD c.wtRoot c.repo c.bp a task
    let winName := winNameD c.bp a task
    (if i = 0 then
      [Call.renameWindow s 0 winName,
       Call.sendKeys s 0 none ("cd " ++ wtDir),
       Call.sendKeys s 0 none "lazygit",
       Call.splitWindow s 0 wtDir]
     else
      [Call.newWindow s winName wtDir,
       Call.sendKeys s i none "lazygit",
       Call.splitWindow s i wtDir])
    ++ (if c.startCodex then
          [Call.sendKeys s i (some 1) "codex",
           Call.sendKeys s i (some 1) c.codexPrompt]
        else [])

/-- The session-layout loop (lines 80-101); the `Bool` is false when a
`get_letter` failure aborted it (unreachable when the creation loop already
succeeded, but modelled faithfully). -/
def tmuxLoop (c : DeployCfg) (s : String) (i : Nat) (tasks : List String) :
    List Call × Bool :=
  match tasks with
  | [] => ([], true)
  | t :: ts =>
    match windowCalls c s i t with
    | none => ([], false)
    | some calls =>
      let rest := tmuxLoop c s (i + 1) ts
      (calls ++ rest.1, rest.2)

/-- Outcome of a run: normal return with the final external state, an
uncaught configuration exception (`SystemExit` / `ValueError`), or an
uncaught `CalledProcessError` from a mutating external command. -/
inductive RunOutcome where
  | ok (st : ExtState)
  | configErr
  | cmdErr
  deriving DecidableEq

structure RunResult where
  trace : List Call
  out : RunOutcome
  deriving DecidableEq

/-- `build_worktree_and_deploy_agents` (lines 23-104) on an already-parsed
task list: empty list raises `SystemExit` (line 32); `wt_root` is created
with `exist_ok=True` (line 34); then the worktree loop, then the tmux phase.
`tmux new-session` (line 77) fails (uncaught, `check=True`) when the session
already exists. -/
def build_worktree_and_deploy_agents (c : DeployCfg) (tasks : List String)
    (st : ExtState) : RunResult :=
  if tasks = [] then { trace := [], out := RunOutcome.configErr }
  else
    let pre := [Call.mkdirRoot c.wtRoot]
    let l1 := deployLoop1 c 0 tasks st
    match l1.2 with
    | none => { trace := pre ++ l1.1, out := RunOutcome.configErr }
    | some st1 =>
      let s := sessionNameOf c.sessionArg c.repo
      if s ∈ st1.sessions then
        { trace := pre ++ l1.1 ++ [Call.newSession s c.wtRoot], out := RunOutcome.cmdErr }
      else
        let l2 := tmuxLoop c s 0 tasks
        if l2.2 then
          { trace := pre ++ l1.1 ++ [Call.newSession s c.wtRoot] ++ l2.1
                       ++ [Call.attachSession s],
            out := RunOutcome.ok ⟨st1.branches, st1.dirs, s :: st1.sessions⟩ }
        else
          { trace := pre ++ l1.1 ++ [Call.newSession s c.wtRoot] ++ l2.1,
            out := RunOutcome.configErr }

/-- Configuration of the `destroy` subcommand (lines 191-198). -/
structure DestroyCfg where
  repo : String
  bp : String
  wtRoot : String
  sessionArg : Option String
  keepBranches : Bool
  deriving DecidableEq

/-- argparse declares `--keep-branches` with `default=True` and
`action="store_true"` (line 198): the parsed value is `True` whether or not
the flag appears on the command line. -/
def parseKeepBranches (flagGiven : Bool) : Bool :=
  if flagGiven then true else true

/-- Session check-and-kill (lines 124-135); the whole block is wrapped in
`try/except`, modelled by the `sessFail` oracle (any exception from the
check or the kill is caught and logged). -/
def destroySession (s : String) (sessFail : Bool) (st : ExtState) :
    List Call × ExtState :=
  if sessFail then
    ([Call.hasSession s, Call.echo "Error checking/killing tmux session"], st)
  else if s ∈ st.sessions then
    ([Call.hasSession s, Call.echo ("Killing tmux session: " ++ s), Call.killSession s],
     ⟨st.branches, st.dirs, st.sessions.erase s⟩)
  else
    ([Call.hasSession s, Call.echo ("Tmux session " ++ s ++ " not found")], st)

/-- Per-task body of the destroy loop (lines 138-168).  `rmFail`/`delFail`
are oracles saying whether `git worktree remove` / `git branch -D` exits
non-zero there; both failures are caught (`except CalledProcessError`) and
only logged.  `none` models the uncaught `ValueError` from `get_letter`. -/
def destroyTask (c : DestroyCfg) (rmFail delFail : String → Bool) (i : Nat)
    (task : String) (st : ExtState) : Option (List Call × ExtState) :=
  match get_letter i with
  | none => none
  | some a =>
    let branch := branchNameX c.bp a task
    let wtDir := wtDirPathX c.wtRoot c.repo c.bp a task
    let rmPart : List Call × ExtState :=
      if wtDir ∈ st.dirs then
        if rmFail wtDir then
          ([Call.echo ("Removing worktree: " ++ wtDir), Call.worktreeRemove wtDir,
            Call.echo ("Error removing worktree " ++ wtDir)], st)
        else
          ([Call.echo ("Removing worktree: " ++ wtDir), Call.worktreeRemove wtDir],
           ⟨st.branches, st.dirs.erase wtDir, st.sessions⟩)
      else
        ([Call.echo ("Worktree " ++ wtDir ++ " not found")], st)
    let st1 := rmPart.2
    let brPart : List Call × ExtState :=
      if c.keepBranches then ([], st1)
      else if branch ∈ st1.branches then
        if delFail branch then
          ([Call.showRef branch, Call.echo ("Deleting branch: " ++ branch),
            Call.branchDelete branch, Call.echo ("Error deleting branch " ++ branch)], st1)
        else
          ([Call.showRef branch, Call.echo ("Deleting branch: " ++ branch),
            Call.branchDelete branch],
           ⟨st1.branches.erase branch, st1.dirs, st1.sessions⟩)
      else
        ([Call.showRef branch, Call.echo ("Branch " ++ branch ++ " not found")], st1)
    some (rmPart.1 ++ brPart.1, brPart.2)

/-- The destroy loop over the enumerated task list; a `none` from
`destroyTask` aborts the run (the `ValueError` is uncaught), keeping the
calls already issued. -/
def destroyLoop (c : DestroyCfg) (rmFail delFail : String → Bool) (i : Nat)
    (tasks : List String) (st : ExtState) : List Call × Option ExtState :=
  match tasks with
  | [] => ([], some st)
  | t :: ts =>
    match destroyTask c rmFail delFail i t st with
    | none => ([], none)
    | some (calls, st') =>
      let rest := destroyLoop c rmFail delFail (i + 1) ts st'
      (calls ++ rest.1, rest.2)

/-- `destroy_tmux_sessions_and_worktrees` (lines 112-170) on an
already-parsed task list: empty list raises `SystemExit` (line 121); then
session teardown, the per-task loop, and the unconditional summary print
(line 170) — unconditional only if no exception escaped the loop. -/
def destroy_tmux_sessions_and_worktrees (c : DestroyCfg) (sessFail : Bool)
    (rmFail delFail : String → Bool) (tasks : List String) (st : ExtState) :
    List Call × Option ExtState :=
  if tasks = [] then ([], none)
  else
    let sp := destroySession (sessionNameOf c.sessionArg c.repo) sessFail st
    match destroyLoop c rmFail delFail 0 tasks sp.2 with
    | (tr, none) => (sp.1 ++ tr, none)
    | (tr, some st') => (sp.1 ++ tr ++ [Call.echo "\nCleanup complete!"], some st')

/-- One tmux window: its current name and number of panes. -/
structure Window where
  nm : String
  panes : Nat
  deriving DecidableEq

/-- Effect of a call on the window list of the (single) session: a new
session starts with one window of one pane; `split-window` adds a pane to
the targeted window (the new pane getting the next index, i.e. index 1 in a
one-pane window); all non-tmux calls are ignored. -/
def applyTmux (ws : List Window) : Call → List Window
  | .newSession _ _ => [⟨"", 1⟩]
  | .renameWindow _ i nm =>
    match ws.get? i with
    | some w => ws.set i ⟨nm, w.panes⟩
    | none => ws
  | .newWindow _ nm _ => ws ++ [⟨nm, 1⟩]
  | .splitWindow _ i _ =>
    match ws.get? i with
    | some w => ws.set i ⟨w.nm, w.panes + 1⟩
    | none => ws
  | _ => ws

/-- Window list of the session after replaying a trace. -/
def windowsAfter (calls : List Call) : List Window :=
  calls.foldl applyTmux []

/-- The window layout the spec demands: one window per task in task order,
named by the naming scheme, two panes each. -/
def expectedWindows (c : DeployCfg) (i : Nat) (tasks : List String) : List Window :=
  match tasks with
  | [] => []
  | t :: ts => ⟨winNameD c.bp ((get_letter i).getD ' ') t, 2⟩ :: expectedWindows c (i + 1) ts

/-- The tmux call that gives task `i` its window (rename of the initial
window for the first task, `new-window` for the rest). -/
def windowOpFor (c : DeployCfg) (s : String) (i : Nat) (a : Char) (task : String) : Call :=
  if i = 0 then Call.renameWindow s 0 (winNameD c.bp a task)
  else Call.newWindow s (winNameD c.bp a task) (wtDirPathD c.wtRoot c.repo c.bp a task)

/-- Concrete deploy configuration used in witnesses and counterexamples. -/
def cfgA : DeployCfg :=
  { repo := "r", bp := "aiagent", wtRoot := "w", sessionArg := none,
    startCodex := false, codexPrompt := "p", emailDomain := "local" }

/-- Concrete destroy configuration used in witnesses and counterexamples. -/
def cfgX (keep : Bool) : DestroyCfg :=
  { repo := "r", bp := "aiagent", wtRoot := "w", sessionArg := none,
    keepBranches := keep }

/-- The empty external world. -/
def st0 : ExtState := ⟨[], [], []⟩

/-- A 27-entry task list (one over the identifier capacity). -/
def t27 : List String := List.replicate 27 "t"

end DA

namespace DA

theorem strData_append (s t : String) : (s ++ t).data = s.data ++ t.data := rfl

theorem strData_inj {s t : String} (h : s.data = t.data) : s = t := by
  cases s; cases t; exact congrArg String.mk h

theorem branchNameD_data (bp : String) (a : Char) (task : String) :
    (branchNameD bp a task).data = bp.data ++ '/' :: a :: '/' :: task.data := by
  simp [branchNameD, strData_append, String.singleton]

theorem wtDirPathD_data (w r bp : String) (a : Char) (t : String) :
    (wtDirPathD w r bp a t).data
      = w.data ++ '/' :: (r.data ++ '_' :: '_' :: (bp.data ++ '-' :: a :: '-' :: t.data)) := by
  simp [wtDirPathD, wtDirNameD, strData_append, String.singleton]

/-- Splitting at the first occurrence of a separator absent from both left
parts is unambiguous. -/
theorem splitSep (sep : Char) :
    ∀ (p1 p2 r1 r2 : List Char), sep ∉ p1 → sep ∉ p2 →
      p1 ++ sep :: r1 = p2 ++ sep :: r2 → p1 = p2 ∧ r1 = r2 := by
  intro p1
  induction p1 with
  | nil =>
    intro p2 r1 r2 _ h2 h
    cases p2 with
    | nil => simpa using h
    | cons c cs =>
      simp only [List.nil_append, List.cons_append, List.cons.injEq] at h
      obtain ⟨rfl, -⟩ := h
      exact ((h2 (List.mem_cons_self _ _)).elim : _)
  | cons c cs ih =>
    intro p2 r1 r2 h1 h2 h
    cases p2 with
    | nil =>
      simp only [List.cons_append, List.nil_append, List.cons.injEq] at h
      obtain ⟨rfl, -⟩ := h
      exact ((h1 (List.mem_cons_self _ _)).elim : _)
    | cons d ds =>
      simp only [List.cons_append, List.cons.injEq] at h
      obtain ⟨hcd, htail⟩ := h
      obtain ⟨hp, hr⟩ := ih ds r1 r2 (fun hm => h1 (List.mem_cons_of_mem _ hm))
        (fun hm => h2 (List.mem_cons_of_mem _ hm)) htail
      exact ⟨by rw [hcd, hp], hr⟩

/-- Within a fixed prefix, branch names determine the letter and the task. -/
theorem branchNameD_inj {bp : String} {a1 a2 : Char} {t1 t2 : String}
    (h : branchNameD bp a1 t1 = branchNameD bp a2 t2) : a1 = a2 ∧ t1 = t2 := by
  have hd : bp.data ++ '/' :: a1 :: '/' :: t1.data = bp.data ++ '/' :: a2 :: '/' :: t2.data := by
    rw [← branchNameD_data, ← branchNameD_data, h]
  have h2 := List.append_cancel_left hd
  simp only [List.cons.injEq, true_and] at h2
  exact ⟨h2.1, strData_inj h2.2⟩

/-- Within fixed root, repo and prefix, worktree paths determine the letter
and the task. -/
theorem wtDirPathD_inj {w r bp : String} {a1 a2 : Char} {t1 t2 : String}
    (h : wtDirPathD w r bp a1 t1 = wtDirPathD w r bp a2 t2) : a1 = a2 ∧ t1 = t2 := by
  have hd := congrArg String.data h
  rw [wtDirPathD_data, wtDirPathD_data] at hd
  have h2 := List.append_cancel_left hd
  simp only [List.cons.injEq, true_and] at h2
  have h3 := List.append_cancel_left h2
  simp only [List.cons.injEq, true_and] at h3
  have h4 := List.append_cancel_left h3
  simp only [List.cons.injEq, true_and] at h4
  exact ⟨h4.1, strData_inj h4.2⟩

end DA

namespace DA

theorem letters_nodup : letters.Nodup := by decide

theorem letters_lower : ∀ a ∈ letters, a.isLower = true := by decide

theorem get_letter_lt {i : Nat} (h : i < 26) :
    get_letter i = some (letters.get ⟨i, h⟩) := by
  simp [get_letter, h, letters]

theorem get_letter_inj {i j : Nat} (hi : i < 26) (hj : j < 26) (hne : i ≠ j) :
    get_letter i ≠ get_letter j := by
  rw [get_letter_lt hi, get_letter_lt hj]
  intro h
  have hg : letters.get ⟨i, hi⟩ = letters.get ⟨j, hj⟩ := by simpa using h
  have := (List.Nodup.get_inj_iff letters_nodup).mp hg
  exact hne (by simpa using this)

theorem get_letter_mem {i : Nat} {a : Char} (h : get_letter i = some a) : a ∈ letters := by
  unfold get_letter at h
  split at h
  · obtain rfl := Option.some.inj h
    exact List.get_mem _ _ _
  · exact absurd h (by simp)

end DA

namespace DA

/-- Reaching index 26 inside the creation loop aborts it. -/
theorem deployLoop1_none (c : DeployCfg) :
    ∀ (ts : List String) (i : Nat) (st : ExtState), i ≤ 26 → 26 < i + ts.length →
      (deployLoop1 c i ts st).2 = none := by
  intro ts
  induction ts with
  | nil => intro i st hle hlt; simp at hlt; omega
  | cons t ts ih =>
    intro i st hle hlt
    rcases Nat.lt_or_ge i 26 with hlt26 | hge
    · unfold deployLoop1
      rcases hdt : deployTask c i t st with - | pr
      · simp [hdt]
      · simp only [hdt]
        exact ih (i + 1) pr.2 (by omega) (by simp at hlt ⊢; omega)
    · have hi : i = 26 := by omega
      subst hi
      unfold deployLoop1 deployTask
      simp [get_letter, letters]

end DA

namespace DA

theorem letters_length : letters.length = 26 := rfl

/-- C3 (amended): for task lists of length at most 26 the identity assigner
yields, in task order, the letter `alphabet[index]` — a lowercase letter —
and distinct indices get distinct letters; for lists longer than 26 the run
raises the capacity `ValueError` when it reaches index 26 (after the first
26 tasks have already been processed). -/
theorem c3_letters_and_capacity (c : DeployCfg) (st : ExtState) (tasks : List String) :
    ((tasks.length ≤ 26) → ∀ i j, i < tasks.length → j < tasks.length →
        ((∃ a, get_letter i = some a ∧ letters.get? i = some a ∧ a.isLower = true)
          ∧ (i ≠ j → get_letter i ≠ get_letter j)))
  ∧ (26 < tasks.length →
      (build_worktree_and_deploy_agents c tasks st).out = RunOutcome.configErr) := by
  constructor
  · intro hle i j hi hj
    have hi26 : i < 26 := by omega
    have hj26 : j < 26 := by omega
    have hi' : i < letters.length := letters_length.symm ▸ hi26
    refine ⟨⟨letters.get ⟨i, hi26⟩, get_letter_lt hi26, ?_, ?_⟩,
            fun hne => get_letter_inj hi26 hj26 hne⟩
    · rw [List.get?_eq_get hi']
    · exact letters_lower _ (List.get_mem _ _ _)
  · intro hgt
    have hne : tasks ≠ [] := by intro h; rw [h] at hgt; simp at hgt
    unfold build_worktree_and_deploy_agents
    simp only [hne, if_false]
    have := deployLoop1_none c tasks 0 st (by omega) (by omega)
    rcases hl : deployLoop1 c 0 tasks st with ⟨tr, res⟩
    rw [hl] at this
    simp at this
    simp [this, hl]

end DA

namespace DA

/-- C3 counterexample: a 27-task deploy from a clean target does raise the
configuration error, but only after issuing mutating version-control calls
for the first 26 tasks — not "before any external (mutating) call". -/
theorem c3_counterexample :
    (build_worktree_and_deploy_agents cfgA t27 st0).out = RunOutcome.configErr
  ∧ (build_worktree_and_deploy_agents cfgA t27 st0).trace.any Call.isMutVC = true := by
  decide

/-- C3 witness: the amended theorem applied at concrete inputs. -/
theorem c3_witness :
    ((∃ a, get_letter 0 = some a ∧ letters.get? 0 = some a ∧ a.isLower = true)
      ∧ (0 ≠ 1 → get_letter 0 ≠ get_letter 1))
  ∧ (build_worktree_and_deploy_agents cfgA t27 st0).out = RunOutcome.configErr :=
  ⟨(c3_letters_and_capacity cfgA st0 ["x", "y"]).1 (by decide) 0 1 (by decide) (by decide),
   (c3_letters_and_capacity cfgA st0 t27).2 (by decide)⟩

/-- C4 counterexample: over unconstrained inputs the naming scheme is not
injective: two distinct (branch prefix, letter, task) triples can share a
branch name (a `/` inside the prefix) and two distinct triples can share a
workspace path (a `-` inside the prefix). -/
theorem c4_counterexample :
    ((("a/b" : String), 'c', ("d" : String)) ≠ (("a" : String), 'b', ("c/d" : String))
      ∧ branchNameD "a/b" 'c' "d" = branchNameD "a" 'b' "c/d")
  ∧ ((("x-y" : String), 'a', ("z" : String)) ≠ (("x" : String), 'y', ("a-z" : String))
      ∧ wtDirPathD "w" "r" "x-y" 'a' "z" = wtDirPathD "w" "r" "x" 'y' "a-z") := by
  decide

/-- C4 (amended): the naming scheme is injective on triples whose branch
prefix contains neither of the separator characters it is joined with:
no `/` (branch names) and no `-` (workspace names). -/
theorem c4_injective_of_clean_sep (wtRoot repo bp1 bp2 : String) (a1 a2 : Char)
    (t1 t2 : String)
    (hs1 : '/' ∉ bp1.data) (hs2 : '/' ∉ bp2.data)
    (hd1 : '-' ∉ bp1.data) (hd2 : '-' ∉ bp2.data)
    (hne : (bp1, a1, t1) ≠ (bp2, a2, t2)) :
    branchNameD bp1 a1 t1 ≠ branchNameD bp2 a2 t2
  ∧ wtDirPathD wtRoot repo bp1 a1 t1 ≠ wtDirPathD wtRoot repo bp2 a2 t2 := by
  constructor
  · intro h
    have hd := congrArg String.data h
    rw [branchNameD_data, branchNameD_data] at hd
    obtain ⟨hp, hr⟩ := splitSep '/' _ _ _ _ hs1 hs2 hd
    simp only [List.cons.injEq, true_and] at hr
    exact hne (by rw [strData_inj hp, hr.1, strData_inj hr.2])
  · intro h
    have hdd := congrArg String.data h
    rw [wtDirPathD_data, wtDirPathD_data] at hdd
    have h2 := List.append_cancel_left hdd
    simp only [List.cons.injEq, true_and] at h2
    have h3 := List.append_cancel_left h2
    simp only [List.cons.injEq, true_and] at h3
    obtain ⟨hp, hr⟩ := splitSep '-' _ _ _ _ hd1 hd2 h3
    simp only [List.cons.injEq, true_and] at hr
    exact hne (by rw [strData_inj hp, hr.1, strData_inj hr.2])

/-- C4 witness: the amended injectivity applied at a concrete pair of
distinct triples. -/
theorem c4_witness :
    ('/' ∉ ("aiagent" : String).data ∧ '-' ∉ ("aiagent" : String).data
      ∧ (("aiagent" : String), 'a', ("alpha" : String)) ≠ (("aiagent" : String), 'b', ("alpha" : String)))
  ∧ (branchNameD "aiagent" 'a' "alpha" ≠ branchNameD "aiagent" 'b' "alpha"
      ∧ wtDirPathD "w" "r" "aiagent" 'a' "alpha" ≠ wtDirPathD "w" "r" "aiagent" 'b' "alpha") :=
  ⟨⟨by decide, by decide, by decide⟩,
   c4_injective_of_clean_sep "w" "r" "aiagent" "aiagent" 'a' 'b' "alpha" "alpha"
     (by decide) (by decide) (by decide) (by decide) (by decide)⟩

/-- C5: the creation path (lines 39-40, 83), the destruction path (lines
140-141) and the spec's formulas all derive the same branch name, workspace
path and window name, with `windowName = branchName`. -/
theorem c5_naming_consistent (project bp wtRoot : String) (a : Char) (task : String) :
    branchNameD bp a task = specBranchName bp a task
  ∧ wtDirPathD wtRoot project bp a task = specWorkspacePath wtRoot project bp a task
  ∧ winNameD bp a task = branchNameD bp a task
  ∧ branchNameX bp a task = branchNameD bp a task
  ∧ wtDirPathX wtRoot project bp a task = wtDirPathD wtRoot project bp a task :=
  ⟨rfl,
   strData_inj (by simp [wtDirPathD, wtDirNameD, specWorkspacePath, strData_append]),
   rfl, rfl, rfl⟩

end DA

namespace DA

/-- C9: for a task whose branch and worktree directory are both absent, the
creation loop issues, in order: the branch-existence query, `git worktree
add -b BRANCH DIR HEAD` (a new branch rooted at the current head), recursive
submodule initialization inside the worktree, and the two worktree-local
identity settings — user.name = branch name, user.email = branch name with
every `/` replaced by `-`, then `@` and the email domain. -/
theorem c9_fresh_task_steps (c : DeployCfg) (i : Nat) (task : String) (st : ExtState)
    (a : Char) (ha : get_letter i = some a)
    (hb : branchNameD c.bp a task ∉ st.branches)
    (hd : wtDirPathD c.wtRoot c.repo c.bp a task ∉ st.dirs) :
    deployTask c i task st =
      some ([Call.showRef (branchNameD c.bp a task),
             Call.worktreeAddNew (branchNameD c.bp a task)
               (wtDirPathD c.wtRoot c.repo c.bp a task) "HEAD",
             Call.submoduleUpdate (wtDirPathD c.wtRoot c.repo c.bp a task),
             Call.configName (wtDirPathD c.wtRoot c.repo c.bp a task)
               (branchNameD c.bp a task),
             Call.configEmail (wtDirPathD c.wtRoot c.repo c.bp a task)
               (String.map (fun ch => if ch = '/' then '-' else ch)
                  (branchNameD c.bp a task) ++ "@" ++ c.emailDomain)],
            ⟨branchNameD c.bp a task :: st.branches,
             wtDirPathD c.wtRoot c.repo c.bp a task :: st.dirs, st.sessions⟩) := by
  unfold deployTask
  rw [ha]
  simp [hb, hd, pyReplaceSlashDash]

/-- C9 witness: the fresh-task step sequence at a concrete input. -/
theorem c9_witness :
    (get_letter 0 = some 'a'
      ∧ branchNameD cfgA.bp 'a' "alpha" ∉ st0.branches
      ∧ wtDirPathD cfgA.wtRoot cfgA.repo cfgA.bp 'a' "alpha" ∉ st0.dirs)
  ∧ deployTask cfgA 0 "alpha" st0 =
      some ([Call.showRef (branchNameD cfgA.bp 'a' "alpha"),
             Call.worktreeAddNew (branchNameD cfgA.bp 'a' "alpha")
               (wtDirPathD cfgA.wtRoot cfgA.repo cfgA.bp 'a' "alpha") "HEAD",
             Call.submoduleUpdate (wtDirPathD cfgA.wtRoot cfgA.repo cfgA.bp 'a' "alpha"),
             Call.configName (wtDirPathD cfgA.wtRoot cfgA.repo cfgA.bp 'a' "alpha")
               (branchNameD cfgA.bp 'a' "alpha"),
             Call.configEmail (wtDirPathD cfgA.wtRoot cfgA.repo cfgA.bp 'a' "alpha")
               (String.map (fun ch => if ch = '/' then '-' else ch)
                  (branchNameD cfgA.bp 'a' "alpha") ++ "@" ++ cfgA.emailDomain)],
            ⟨branchNameD cfgA.bp 'a' "alpha" :: st0.branches,
             wtDirPathD cfgA.wtRoot cfgA.repo cfgA.bp 'a' "alpha" :: st0.dirs,
             st0.sessions⟩) :=
  ⟨⟨by decide, by decide, by decide⟩,
   c9_fresh_task_steps cfgA 0 "alpha" st0 'a' (by decide) (by decide) (by decide)⟩

theorem deployTask_no_attach (c : DeployCfg) (i : Nat) (task : String) (st : ExtState)
    (b d : String) (pr : List Call × ExtState) (hpr : deployTask c i task st = some pr) :
    Call.worktreeAddExisting b d ∉ pr.1 := by
  unfold deployTask at hpr
  rcases hga : get_letter i with - | a <;> rw [hga] at hpr
  · simp at hpr
  · by_cases hb : branchNameD c.bp a task ∈ st.branches
    · simp [hb] at hpr
      subst hpr
      simp
    · by_cases hd2 : wtDirPathD c.wtRoot c.repo c.bp a task ∈ st.dirs
      · simp [hb, hd2] at hpr
        subst hpr
        simp
      · simp [hb, hd2] at hpr
        subst hpr
        simp

theorem deployLoop1_no_attach (c : DeployCfg) (b d : String) :
    ∀ (ts : List String) (i : Nat) (st : ExtState),
      Call.worktreeAddExisting b d ∉ (deployLoop1 c i ts st).1 := by
  intro ts
  induction ts with
  | nil => intro i st; simp [deployLoop1]
  | cons t ts ih =>
    intro i st
    unfold deployLoop1
    rcases hdt : deployTask c i t st with - | pr
    · simp
    · simp only [List.mem_append, not_or]
      exact ⟨deployTask_no_attach c i t st b d pr hdt, ih (i + 1) pr.2⟩

theorem windowCalls_no_attach (c : DeployCfg) (s : String) (i : Nat) (task : String)
    (b d : String) (calls : List Call) (hc : windowCalls c s i task = some calls) :
    Call.worktreeAddExisting b d ∉ calls := by
  unfold windowCalls at hc
  rcases hga : get_letter i with - | a <;> rw [hga] at hc
  · simp at hc
  · simp only [Option.map_some] at hc
    obtain rfl := Option.some.inj hc
    by_cases hi : i = 0 <;> by_cases hcx : c.startCodex = true <;>
      simp [hi, hcx]

theorem tmuxLoop_no_attach (c : DeployCfg) (s : String) (b d : String) :
    ∀ (ts : List String) (i : Nat),
      Call.worktreeAddExisting b d ∉ (tmuxLoop c s i ts).1 := by
  intro ts
  induction ts with
  | nil => intro i; simp [tmuxLoop]
  | cons t ts ih =>
    intro i
    unfold tmuxLoop
    rcases hwc : windowCalls c s i t with - | calls
    · simp
    · simp only [List.mem_append, not_or]
      exact ⟨windowCalls_no_attach c s i t b d calls hwc, ih (i + 1)⟩

/-- C10: the creation path never issues the attach-to-existing-branch form
of `git worktree add` (line 59): the successful branch-existence check that
would select it has already `continue`d past the task. -/
theorem c10_worktree_attach_unreachable (c : DeployCfg) (tasks : List String)
    (st : ExtState) (b d : String) :
    Call.worktreeAddExisting b d ∉ (build_worktree_and_deploy_agents c tasks st).trace := by
  unfold build_worktree_and_deploy_agents
  by_cases hn : tasks = []
  · simp [hn]
  · simp only [hn, if_false]
    rcases hl : deployLoop1 c 0 tasks st with ⟨tr, res⟩
    have htr : Call.worktreeAddExisting b d ∉ tr := by
      have := deployLoop1_no_attach c b d tasks 0 st
      rw [hl] at this
      exact this
    rcases res with - | st1
    · simpa using htr
    · simp only
      by_cases hs : sessionNameOf c.sessionArg c.repo ∈ st1.sessions
      · simp [hs, htr]
      · simp only [hs, if_false]
        have ht2 := tmuxLoop_no_attach c (sessionNameOf c.sessionArg c.repo) b d tasks 0
        by_cases hok : (tmuxLoop c (sessionNameOf c.sessionArg c.repo) 0 tasks).2
        · simp [hok, htr, ht2]
        · simp [hok, htr, ht2]

end DA

namespace DA

/-- External state with the first run's branch, worktree and session present. -/
def stB : ExtState := ⟨["aiagent/a/alpha"], ["w/r__aiagent-a-alpha"], []⟩

/-- C1: deploying twice with the same arguments: the first run from a clean
target succeeds; the second run issues zero mutating version-control calls
(every branch already exists) but then aborts with a command error, because
`tmux new-session -d -s SESSION` (line 77) is issued unconditionally and
exits non-zero when the session exists, raising under `check=True`. -/
theorem c1_second_run_fails :
    ∃ s1 : ExtState,
      (build_worktree_and_deploy_agents cfgA ["alpha"] st0).out = RunOutcome.ok s1
      ∧ (build_worktree_and_deploy_agents cfgA ["alpha"] s1).out = RunOutcome.cmdErr
      ∧ (build_worktree_and_deploy_agents cfgA ["alpha"] s1).trace.any Call.isMutVC = false :=
  ⟨⟨["aiagent/a/alpha"], ["w/r__aiagent-a-alpha"], ["r"]⟩, by decide, by decide, by decide⟩

/-- C2: `--keep-branches` is declared with `default=True, action="store_true"`
(line 198), so the parsed value is `True` even when the flag is NOT given on
the command line: a destroy run without the flag still removes the worktree
but never invokes branch deletion, and the branch survives in the final
state — contradicting the script's own docstring (line 109, "Deletes the
branches (unless --keep-branches is specified)"). -/
theorem c2_keep_branches_default_bug :
    parseKeepBranches false = true
  ∧ ((destroy_tmux_sessions_and_worktrees (cfgX (parseKeepBranches false)) false
        (fun _ => false) (fun _ => false) ["alpha"] stB).1.any Call.isBranchDelete = false)
  ∧ (Call.worktreeRemove "w/r__aiagent-a-alpha"
      ∈ (destroy_tmux_sessions_and_worktrees (cfgX (parseKeepBranches false)) false
          (fun _ => false) (fun _ => false) ["alpha"] stB).1)
  ∧ ((destroy_tmux_sessions_and_worktrees (cfgX (parseKeepBranches false)) false
        (fun _ => false) (fun _ => false) ["alpha"] stB).2
      = some ⟨["aiagent/a/alpha"], [], []⟩) := by
  refine ⟨rfl, by decide, by decide, by decide⟩

end DA

namespace DA

theorem destroyTask_processed (c : DestroyCfg) (rmFail delFail : String → Bool)
    (i : Nat) (task : String) (st : ExtState) (a : Char) (ha : get_letter i = some a) :
    ∃ pr, destroyTask c rmFail delFail i task st = some pr
      ∧ (Call.echo ("Removing worktree: " ++ wtDirPathX c.wtRoot c.repo c.bp a task) ∈ pr.1
         ∨ Call.echo ("Worktree " ++ wtDirPathX c.wtRoot c.repo c.bp a task ++ " not found")
             ∈ pr.1) := by
  unfold destroyTask
  rw [ha]
  refine ⟨_, rfl, ?_⟩
  by_cases hd : wtDirPathX c.wtRoot c.repo c.bp a task ∈ st.dirs
  · left
    by_cases hrm : rmFail (wtDirPathX c.wtRoot c.repo c.bp a task) <;> simp [hd, hrm]
  · right
    simp [hd]

theorem destroyLoop_processed (c : DestroyCfg) (rmFail delFail : String → Bool) :
    ∀ (ts : List String) (i : Nat) (st : ExtState), i + ts.length ≤ 26 →
      ∃ tr st', destroyLoop c rmFail delFail i ts st = (tr, some st')
        ∧ ∀ j t, ts.get? j = some t → ∃ a, get_letter (i + j) = some a
            ∧ (Call.echo ("Removing worktree: " ++ wtDirPathX c.wtRoot c.repo c.bp a t) ∈ tr
               ∨ Call.echo ("Worktree " ++ wtDirPathX c.wtRoot c.repo c.bp a t ++ " not found")
                   ∈ tr) := by
  intro ts
  induction ts with
  | nil => intro i st _; exact ⟨[], st, rfl, by simp⟩
  | cons t ts ih =>
    intro i st h
    have hi : i < 26 := by simp at h; omega
    obtain ⟨pr, hpr, hmem⟩ := destroyTask_processed c rmFail delFail i t st _ (get_letter_lt hi)
    obtain ⟨tr, st', hloop, hrest⟩ := ih (i + 1) pr.2 (by simp at h ⊢; omega)
    refine ⟨pr.1 ++ tr, st', ?_, ?_⟩
    · unfold destroyLoop
      simp only [hpr]
      rw [hloop]
    · intro j t' hj
      cases j with
      | zero =>
        obtain rfl := Option.some.inj hj
        refine ⟨_, by simpa using get_letter_lt hi, ?_⟩
        rcases hmem with hm | hm
        · exact Or.inl (List.mem_append_left _ hm)
        · exact Or.inr (List.mem_append_left _ hm)
      | succ j =>
        obtain ⟨a', ha', hm⟩ := hrest j t' (by simpa using hj)
        refine ⟨a', by rw [show i + (j + 1) = (i + 1) + j by omega]; exact ha', ?_⟩
        rcases hm with hm | hm
        · exact Or.inl (List.mem_append_right _ hm)
        · exact Or.inr (List.mem_append_right _ hm)

/-- C7 (amended): for every non-empty task list of length at most 26 and
every pattern of per-step external failures (session check/kill, worktree
removal, branch deletion), the destroy run processes every task — each
task's worktree is either removed or reported missing — and always ends
with the final completion summary. -/
theorem c7_best_effort_cleanup (c : DestroyCfg) (sessFail : Bool)
    (rmFail delFail : String → Bool) (tasks : List String) (st : ExtState)
    (hne : tasks ≠ []) (hlen : tasks.length ≤ 26) :
    ((destroy_tmux_sessions_and_worktrees c sessFail rmFail delFail tasks st).2.isSome = true)
  ∧ ((destroy_tmux_sessions_and_worktrees c sessFail rmFail delFail tasks st).1.getLast?
      = some (Call.echo "\nCleanup complete!"))
  ∧ (∀ j t, tasks.get? j = some t → ∃ a, get_letter j = some a
      ∧ (Call.echo ("Removing worktree: " ++ wtDirPathX c.wtRoot c.repo c.bp a t)
           ∈ (destroy_tmux_sessions_and_worktrees c sessFail rmFail delFail tasks st).1
         ∨ Call.echo ("Worktree " ++ wtDirPathX c.wtRoot c.repo c.bp a t ++ " not found")
           ∈ (destroy_tmux_sessions_and_worktrees c sessFail rmFail delFail tasks st).1)) := by
  obtain ⟨tr, st', hloop, hmem⟩ := destroyLoop_processed c rmFail delFail tasks 0
    (destroySession (sessionNameOf c.sessionArg c.repo) sessFail st).2 (by omega)
  unfold destroy_tmux_sessions_and_worktrees
  simp only [hne, if_false, hloop]
  refine ⟨by simp, List.getLast?_concat _, ?_⟩
  intro j t hj
  obtain ⟨a, ha, hm⟩ := hmem j t hj
  refine ⟨a, by simpa using ha, ?_⟩
  rcases hm with hm | hm
  · exact Or.inl (List.mem_append_left _ (List.mem_append_right _ hm))
  · exact Or.inr (List.mem_append_left _ (List.mem_append_right _ hm))

/-- C7 counterexample: with 27 tasks the uncaught `ValueError` from
`get_letter` (line 139) halts the destroy loop at index 26 and the final
completion summary is never printed. -/
theorem c7_counterexample :
    (destroy_tmux_sessions_and_worktrees (cfgX true) false (fun _ => false) (fun _ => false)
        t27 st0).2 = none
  ∧ ((destroy_tmux_sessions_and_worktrees (cfgX true) false (fun _ => false) (fun _ => false)
        t27 st0).1.any (fun call => call = Call.echo "\nCleanup complete!") = false) := by
  decide

/-- C7 witness: even with every worktree removal and branch deletion
failing, a one-task destroy run completes with the summary message. -/
theorem c7_witness :
    ((destroy_tmux_sessions_and_worktrees (cfgX true) false (fun _ => true) (fun _ => true)
        ["alpha"] stB).2.isSome = true)
  ∧ ((destroy_tmux_sessions_and_worktrees (cfgX true) false (fun _ => true) (fun _ => true)
        ["alpha"] stB).1.getLast? = some (Call.echo "\nCleanup complete!")) :=
  ⟨(c7_best_effort_cleanup (cfgX true) false (fun _ => true) (fun _ => true) ["alpha"] stB
      (by decide) (by decide)).1,
   (c7_best_effort_cleanup (cfgX true) false (fun _ => true) (fun _ => true) ["alpha"] stB
      (by decide) (by decide)).2.1⟩

end DA

namespace DA

/-- Case analysis of a successful per-task creation step: it is either the
skip (branch or directory already present, only the query issued, state
unchanged) or the full fresh-task sequence. -/
theorem deployTask_spec (c : DeployCfg) (i : Nat) (task : String) (st : ExtState)
    (pr : List Call × ExtState) (hpr : deployTask c i task st = some pr) :
    ∃ a, get_letter i = some a ∧
      (pr = ([Call.showRef (branchNameD c.bp a task)], st)
       ∨ (branchNameD c.bp a task ∉ st.branches
          ∧ pr = ([Call.showRef (branchNameD c.bp a task),
                   Call.worktreeAddNew (branchNameD c.bp a task)
                     (wtDirPathD c.wtRoot c.repo c.bp a task) "HEAD",
                   Call.submoduleUpdate (wtDirPathD c.wtRoot c.repo c.bp a task),
                   Call.configName (wtDirPathD c.wtRoot c.repo c.bp a task)
                     (branchNameD c.bp a task),
                   Call.configEmail (wtDirPathD c.wtRoot c.repo c.bp a task)
                     (pyReplaceSlashDash (branchNameD c.bp a task) ++ "@" ++ c.emailDomain)],
                  ⟨branchNameD c.bp a task :: st.branches,
                   wtDirPathD c.wtRoot c.repo c.bp a task :: st.dirs, st.sessions⟩))) := by
  unfold deployTask at hpr
  rcases hga : get_letter i with - | a <;> rw [hga] at hpr
  · simp at hpr
  · refine ⟨a, rfl, ?_⟩
    by_cases hb : branchNameD c.bp a task ∈ st.branches
    · simp [hb] at hpr
      subst hpr
      left
      rfl
    · by_cases hd : wtDirPathD c.wtRoot c.repo c.bp a task ∈ st.dirs
      · simp [hb, hd] at hpr
        subst hpr
        left
        rfl
      · simp [hb, hd] at hpr
        subst hpr
        right
        exact ⟨hb, rfl⟩

/-- A branch present before the creation loop is never the target of a
mutating version-control call, and survives into the loop's final state. -/
theorem deployLoop1_fresh (c : DeployCfg) (x : String) :
    ∀ (ts : List String) (i : Nat) (st : ExtState), x ∈ st.branches →
      (∀ call ∈ (deployLoop1 c i ts st).1, Call.usesBranchVC x call = false)
      ∧ (∀ st', (deployLoop1 c i ts st).2 = some st' → x ∈ st'.branches) := by
  intro ts
  induction ts with
  | nil =>
    intro i st hx
    refine ⟨by simp [deployLoop1], ?_⟩
    intro st' h
    simp only [deployLoop1, Option.some.injEq] at h
    exact h ▸ hx
  | cons t ts ih =>
    intro i st hx
    unfold deployLoop1
    rcases hdt : deployTask c i t st with - | pr
    · simp
    · obtain ⟨a, -, hcase⟩ := deployTask_spec c i t st pr hdt
      rcases hcase with rfl | ⟨hbf, rfl⟩
      · simp only
        obtain ⟨ih1, ih2⟩ := ih (i + 1) st hx
        refine ⟨?_, ?_⟩
        · intro call hc
          rcases List.mem_append.mp hc with hc | hc
          · simp at hc
            subst hc
            rfl
          · exact ih1 call hc
        · exact ih2
      · simp only
        have hne : branchNameD c.bp a t ≠ x := fun h => hbf (h ▸ hx)
        obtain ⟨ih1, ih2⟩ := ih (i + 1)
          ⟨branchNameD c.bp a t :: st.branches,
           wtDirPathD c.wtRoot c.repo c.bp a t :: st.dirs, st.sessions⟩
          (List.mem_cons_of_mem _ hx)
        refine ⟨?_, ih2⟩
        intro call hc
        rcases List.mem_append.mp hc with hc | hc
        · simp only [List.mem_cons, List.mem_singleton] at hc
          rcases hc with rfl | rfl | rfl | rfl | rfl | hfalse
          · rfl
          · simp [Call.usesBranchVC, hne]
          · rfl
          · rfl
          · rfl
          · simp at hfalse
        · exact ih1 call hc

/-- No mutating version-control call of the creation loop touches the
worktree directory of a task whose branch already exists. -/
theorem deployLoop1_dir_fresh (c : DeployCfg) (a : Char) (task : String) :
    ∀ (ts : List String) (i : Nat) (st : ExtState),
      branchNameD c.bp a task ∈ st.branches →
      ∀ call ∈ (deployLoop1 c i ts st).1,
        Call.usesDirVC (wtDirPathD c.wtRoot c.repo c.bp a task) call = false := by
  intro ts
  induction ts with
  | nil => intro i st hx; simp [deployLoop1]
  | cons t ts ih =>
    intro i st hx
    unfold deployLoop1
    rcases hdt : deployTask c i t st with - | pr
    · simp
    · obtain ⟨a', -, hcase⟩ := deployTask_spec c i t st pr hdt
      rcases hcase with rfl | ⟨hbf, rfl⟩
      · simp only
        intro call hc
        rcases List.mem_append.mp hc with hc | hc
        · simp at hc
          subst hc
          rfl
        · exact ih (i + 1) st hx call hc
      · simp only
        have hdne : wtDirPathD c.wtRoot c.repo c.bp a' t
            ≠ wtDirPathD c.wtRoot c.repo c.bp a task := by
          intro h
          obtain ⟨rfl, rfl⟩ := wtDirPathD_inj h
          exact hbf hx
        intro call hc
        rcases List.mem_append.mp hc with hc | hc
        · simp only [List.mem_cons, List.mem_singleton] at hc
          rcases hc with rfl | rfl | rfl | rfl | rfl | hfalse
          · rfl
          · simp [Call.usesDirVC, hdne]
          · simp [Call.usesDirVC, hdne]
          · simp [Call.usesDirVC, hdne]
          · simp [Call.usesDirVC, hdne]
          · simp at hfalse
        · exact ih (i + 1) _ (List.mem_cons_of_mem _ hx) call hc

end DA

namespace DA

theorem deployTask_isSome (c : DeployCfg) (i : Nat) (task : String) (st : ExtState)
    (hi : i < 26) : ∃ pr, deployTask c i task st = some pr := by
  unfold deployTask
  rw [get_letter_lt hi]
  simp only
  split
  · exact ⟨_, rfl⟩
  · split
    · exact ⟨_, rfl⟩
    · exact ⟨_, rfl⟩

theorem deployLoop1_isSome (c : DeployCfg) :
    ∀ (ts : List String) (i : Nat) (st : ExtState), i + ts.length ≤ 26 →
      ∃ st1, (deployLoop1 c i ts st).2 = some st1 := by
  intro ts
  induction ts with
  | nil => intro i st _; exact ⟨st, rfl⟩
  | cons t ts ih =>
    intro i st h
    have hi : i < 26 := by simp at h; omega
    obtain ⟨pr, hpr⟩ := deployTask_isSome c i t st hi
    obtain ⟨st1, h1⟩ := ih (i + 1) pr.2 (by simp at h ⊢; omega)
    unfold deployLoop1
    simp only [hpr]
    exact ⟨st1, h1⟩

theorem deployTask_sessions (c : DeployCfg) (i : Nat) (task : String) (st : ExtState)
    (pr : List Call × ExtState) (hpr : deployTask c i task st = some pr) :
    pr.2.sessions = st.sessions := by
  obtain ⟨a, -, hcase⟩ := deployTask_spec c i task st pr hpr
  rcases hcase with rfl | ⟨-, rfl⟩ <;> rfl

theorem deployLoop1_sessions (c : DeployCfg) :
    ∀ (ts : List String) (i : Nat) (st st1 : ExtState),
      (deployLoop1 c i ts st).2 = some st1 → st1.sessions = st.sessions := by
  intro ts
  induction ts with
  | nil =>
    intro i st st1 h
    simp only [deployLoop1, Option.some.injEq] at h
    rw [← h]
  | cons t ts ih =>
    intro i st st1 h
    unfold deployLoop1 at h
    rcases hdt : deployTask c i t st with - | pr <;> rw [hdt] at h
    · simp at h
    · simp only at h
      rw [ih (i + 1) pr.2 st1 h, deployTask_sessions c i t st pr hdt]

/-- The calls issued per window are tmux window/pane operations only. -/
theorem windowCalls_shape (c : DeployCfg) (s : String) (i : Nat) (task : String)
    (calls : List Call) (hc : windowCalls c s i task = some calls) :
    ∀ call ∈ calls,
      (∃ idx nm, call = Call.renameWindow s idx nm)
      ∨ (∃ nm d, call = Call.newWindow s nm d)
      ∨ (∃ w p k, call = Call.sendKeys s w p k)
      ∨ (∃ w d, call = Call.splitWindow s w d) := by
  unfold windowCalls at hc
  rcases hga : get_letter i with - | a <;> rw [hga] at hc
  · simp at hc
  · simp only [Option.map_some] at hc
    obtain rfl := Option.some.inj hc
    intro call hm
    rcases List.mem_append.mp hm with hm | hm
    · by_cases hi : i = 0 <;> simp [hi] at hm <;>
        rcases hm with rfl | rfl | rfl | rfl <;> simp
    · by_cases hcx : c.startCodex = true <;> simp [hcx] at hm
      rcases hm with rfl | rfl <;> simp

theorem tmuxLoop_shape (c : DeployCfg) (s : String) :
    ∀ (ts : List String) (i : Nat), ∀ call ∈ (tmuxLoop c s i ts).1,
      (∃ idx nm, call = Call.renameWindow s idx nm)
      ∨ (∃ nm d, call = Call.newWindow s nm d)
      ∨ (∃ w p k, call = Call.sendKeys s w p k)
      ∨ (∃ w d, call = Call.splitWindow s w d) := by
  intro ts
  induction ts with
  | nil => intro i; simp [tmuxLoop]
  | cons t ts ih =>
    intro i
    unfold tmuxLoop
    rcases hwc : windowCalls c s i t with - | calls
    · simp
    · simp only
      intro call hm
      rcases List.mem_append.mp hm with hm | hm
      · exact windowCalls_shape c s i t calls hwc call hm
      · exact ih (i + 1) call hm

/-- Window/pane operations touch nothing the version-control adapter owns. -/
theorem tmuxLoop_no_vc (c : DeployCfg) (s : String) (ts : List String) (i : Nat)
    (x d : String) :
    ∀ call ∈ (tmuxLoop c s i ts).1,
      Call.usesBranchVC x call = false ∧ Call.usesDirVC d call = false := by
  intro call hm
  rcases tmuxLoop_shape c s ts i call hm with ⟨idx, nm, rfl⟩ | ⟨nm, dd, rfl⟩
    | ⟨w, p, k, rfl⟩ | ⟨w, dd, rfl⟩ <;> exact ⟨rfl, rfl⟩

/-- Each task's window operation appears in the session-layout trace. -/
theorem tmuxLoop_window_mem (c : DeployCfg) (s : String) :
    ∀ (ts : List String) (i0 j : Nat) (t : String), ts.get? j = some t →
      i0 + ts.length ≤ 26 →
      ∃ a, get_letter (i0 + j) = some a
        ∧ windowOpFor c s (i0 + j) a t ∈ (tmuxLoop c s i0 ts).1 := by
  intro ts
  induction ts with
  | nil => intro i0 j t hj _; simp at hj
  | cons t' ts ih =>
    intro i0 j t hj h
    have hi : i0 < 26 := by simp at h; omega
    unfold tmuxLoop
    rcases hwc : windowCalls c s i0 t' with - | calls
    · rw [windowCalls, get_letter_lt hi] at hwc
      simp at hwc
    · simp only
      cases j with
      | zero =>
        obtain rfl := Option.some.inj hj
        refine ⟨_, by simpa using get_letter_lt hi, ?_⟩
        apply List.mem_append_left
        rw [windowCalls, get_letter_lt hi] at hwc
        simp only [Option.map_some] at hwc
        obtain rfl := Option.some.inj hwc
        apply List.mem_append_left
        by_cases hz : i0 = 0 <;> simp [windowOpFor, hz, Nat.add_zero]
      | succ j =>
        obtain ⟨a, ha, hmem⟩ := ih (i0 + 1) j t (by simpa using hj) (by simp at h ⊢; omega)
        refine ⟨a, by rw [show i0 + (j + 1) = (i0 + 1) + j by omega]; exact ha, ?_⟩
        rw [show i0 + (j + 1) = (i0 + 1) + j by omega]
        exact List.mem_append_right _ hmem

end DA

namespace DA

/-- C6: when a task's branch already exists, the per-task creation step
issues only the branch-existence query and leaves the external state
untouched; across the whole run no mutating version-control call targets
that branch or its worktree directory; and the task still gets its window
in the session layout, under the same derived descriptor
(window name = branch name). -/
theorem c6_skip_still_windowed (c : DeployCfg) (tasks : List String) (st : ExtState)
    (i : Nat) (task : String) (a : Char)
    (ht : tasks.get? i = some task)
    (hlen : tasks.length ≤ 26)
    (ha : get_letter i = some a)
    (hb : branchNameD c.bp a task ∈ st.branches)
    (hs : sessionNameOf c.sessionArg c.repo ∉ st.sessions) :
    (deployTask c i task st = some ([Call.showRef (branchNameD c.bp a task)], st))
  ∧ (∀ call ∈ (build_worktree_and_deploy_agents c tasks st).trace,
        Call.usesBranchVC (branchNameD c.bp a task) call = false
        ∧ Call.usesDirVC (wtDirPathD c.wtRoot c.repo c.bp a task) call = false)
  ∧ windowOpFor c (sessionNameOf c.sessionArg c.repo) i a task
      ∈ (build_worktree_and_deploy_agents c tasks st).trace
  ∧ winNameD c.bp a task = branchNameD c.bp a task := by
  have hne : tasks ≠ [] := by intro h; rw [h] at ht; simp at ht
  refine ⟨?_, ?_⟩
  · unfold deployTask
    rw [ha]
    simp [hb]
  obtain ⟨st1, hsome⟩ := deployLoop1_isSome c tasks 0 st (by omega)
  rcases hl : deployLoop1 c 0 tasks st with ⟨tr, res⟩
  rw [hl] at hsome
  have hres : res = some st1 := hsome
  subst hres
  have hsess : st1.sessions = st.sessions :=
    deployLoop1_sessions c tasks 0 st st1 (by rw [hl])
  have hs1 : sessionNameOf c.sessionArg c.repo ∉ st1.sessions := by
    rw [hsess]; exact hs
  obtain ⟨a', ha', hwmem⟩ := tmuxLoop_window_mem c (sessionNameOf c.sessionArg c.repo)
    tasks 0 i task ht (by omega)
  rw [Nat.zero_add] at ha' hwmem
  obtain rfl : a = a' := Option.some.inj (ha.symm.trans ha')
  have htrmem : ∀ call ∈ tr,
      Call.usesBranchVC (branchNameD c.bp a task) call = false
      ∧ Call.usesDirVC (wtDirPathD c.wtRoot c.repo c.bp a task) call = false := by
    intro call hc
    have hc' : call ∈ (deployLoop1 c 0 tasks st).1 := by rw [hl]; exact hc
    exact ⟨(deployLoop1_fresh c (branchNameD c.bp a task) tasks 0 st hb).1 call hc',
           deployLoop1_dir_fresh c a task tasks 0 st hb call hc'⟩
  unfold build_worktree_and_deploy_agents
  simp only [if_neg hne, hl, if_neg hs1]
  by_cases hok : (tmuxLoop c (sessionNameOf c.sessionArg c.repo) 0 tasks).2 = true
  · simp only [hok, if_true]
    refine ⟨?_, ?_, rfl⟩
    · intro call hc
      rcases List.mem_append.mp hc with hc | hc
      · rcases List.mem_append.mp hc with hc | hc
        · rcases List.mem_append.mp hc with hc | hc
          · rcases List.mem_append.mp hc with hc | hc
            · simp only [List.mem_singleton] at hc
              subst hc
              exact ⟨rfl, rfl⟩
            · exact htrmem call hc
          · simp only [List.mem_singleton] at hc
            subst hc
            exact ⟨rfl, rfl⟩
        · exact tmuxLoop_no_vc c (sessionNameOf c.sessionArg c.repo) tasks 0 _ _ call hc
      · simp only [List.mem_singleton] at hc
        subst hc
        exact ⟨rfl, rfl⟩
    · exact List.mem_append_left _ (List.mem_append_right _ hwmem)
  · simp only [hok, if_false]
    refine ⟨?_, ?_, rfl⟩
    · intro call hc
      rcases List.mem_append.mp hc with hc | hc
      · rcases List.mem_append.mp hc with hc | hc
        · rcases List.mem_append.mp hc with hc | hc
          · simp only [List.mem_singleton] at hc
            subst hc
            exact ⟨rfl, rfl⟩
          · exact htrmem call hc
        · simp only [List.mem_singleton] at hc
          subst hc
          exact ⟨rfl, rfl⟩
      · exact tmuxLoop_no_vc c (sessionNameOf c.sessionArg c.repo) tasks 0 _ _ call hc
    · exact List.mem_append_right _ hwmem

end DA

namespace DA

/-- C6 witness: two tasks, the second task's branch pre-existing, session
absent: skip with only the query, and the window operation still issued. -/
theorem c6_witness :
    ((["alpha", "beta"].get? 1 = some "beta")
      ∧ get_letter 1 = some 'b'
      ∧ branchNameD cfgA.bp 'b' "beta" ∈ (⟨["aiagent/b/beta"], [], []⟩ : ExtState).branches
      ∧ sessionNameOf cfgA.sessionArg cfgA.repo
          ∉ (⟨["aiagent/b/beta"], [], []⟩ : ExtState).sessions)
  ∧ (deployTask cfgA 1 "beta" ⟨["aiagent/b/beta"], [], []⟩
      = some ([Call.showRef (branchNameD cfgA.bp 'b' "beta")], ⟨["aiagent/b/beta"], [], []⟩))
  ∧ windowOpFor cfgA (sessionNameOf cfgA.sessionArg cfgA.repo) 1 'b' "beta"
      ∈ (build_worktree_and_deploy_agents cfgA ["alpha", "beta"]
          ⟨["aiagent/b/beta"], [], []⟩).trace :=
  ⟨⟨by decide, by decide, by decide, by decide⟩,
   (c6_skip_still_windowed cfgA ["alpha", "beta"] ⟨["aiagent/b/beta"], [], []⟩ 1 "beta" 'b'
      (by decide) (by decide) (by decide) (by decide) (by decide)).1,
   (c6_skip_still_windowed cfgA ["alpha", "beta"] ⟨["aiagent/b/beta"], [], []⟩ 1 "beta" 'b'
      (by decide) (by decide) (by decide) (by decide) (by decide)).2.2.1⟩

/-- Every call of the creation loop is one of its five per-task git calls. -/
theorem deployLoop1_shape (c : DeployCfg) :
    ∀ (ts : List String) (i : Nat) (st : ExtState),
      ∀ call ∈ (deployLoop1 c i ts st).1,
        (∃ b, call = Call.showRef b)
        ∨ (∃ b d sp, call = Call.worktreeAddNew b d sp)
        ∨ (∃ d, call = Call.submoduleUpdate d)
        ∨ (∃ d n, call = Call.configName d n)
        ∨ (∃ d e, call = Call.configEmail d e) := by
  intro ts
  induction ts with
  | nil => intro i st; simp [deployLoop1]
  | cons t ts ih =>
    intro i st
    unfold deployLoop1
    rcases hdt : deployTask c i t st with - | pr
    · simp
    · obtain ⟨a, -, hcase⟩ := deployTask_spec c i t st pr hdt
      simp only
      intro call hm
      rcases List.mem_append.mp hm with hm | hm
      · rcases hcase with rfl | ⟨-, rfl⟩ <;> simp only [List.mem_cons, List.mem_singleton] at hm
        · rcases hm with rfl | hfalse
          · exact Or.inl ⟨_, rfl⟩
          · simp at hfalse
        · rcases hm with rfl | rfl | rfl | rfl | rfl | hfalse
          · exact Or.inl ⟨_, rfl⟩
          · exact Or.inr (Or.inl ⟨_, _, _, rfl⟩)
          · exact Or.inr (Or.inr (Or.inl ⟨_, rfl⟩))
          · exact Or.inr (Or.inr (Or.inr (Or.inl ⟨_, _, rfl⟩)))
          · exact Or.inr (Or.inr (Or.inr (Or.inr ⟨_, _, rfl⟩)))
          · simp at hfalse
      · exact ih (i + 1) pr.2 call hm

/-- Calls that create/rename/split windows or create the session. -/
def Call.isWinOp : Call → Bool
  | .newSession _ _ => true
  | .renameWindow _ _ _ => true
  | .newWindow _ _ _ => true
  | .splitWindow _ _ _ => true
  | _ => false

theorem applyTmux_id {call : Call} (h : call.isWinOp = false) (ws : List Window) :
    applyTmux ws call = ws := by
  cases call <;> first | rfl | simp [Call.isWinOp] at h

theorem foldl_applyTmux_id (tr : List Call) (h : ∀ call ∈ tr, call.isWinOp = false) :
    ∀ ws : List Window, tr.foldl applyTmux ws = ws := by
  induction tr with
  | nil => intro ws; rfl
  | cons x tr ih =>
    intro ws
    rw [List.foldl_cons, applyTmux_id (h x (List.mem_cons_self _ _)) ws]
    exact ih (fun call hc => h call (List.mem_cons_of_mem _ hc)) ws

theorem deployLoop1_no_winOp (c : DeployCfg) (ts : List String) (i : Nat) (st : ExtState) :
    ∀ call ∈ (deployLoop1 c i ts st).1, call.isWinOp = false := by
  intro call hm
  rcases deployLoop1_shape c ts i st call hm with ⟨b, rfl⟩ | ⟨b, d, sp, rfl⟩
    | ⟨d, rfl⟩ | ⟨d, n, rfl⟩ | ⟨d, e, rfl⟩ <;> rfl

end DA

namespace DA

theorem get?_append_len (ws : List Window) (x : Window) :
    (ws ++ [x]).get? ws.length = some x := by
  induction ws with
  | nil => rfl
  | cons w ws ih => exact ih

theorem set_append_len (ws : List Window) (x y : Window) :
    (ws ++ [x]).set ws.length y = ws ++ [y] := by
  induction ws with
  | nil => rfl
  | cons w ws ih =>
    show w :: (ws ++ [x]).set ws.length y = w :: (ws ++ [y])
    rw [ih]

theorem applyTmux_newWindow (ws : List Window) (s nm d : String) :
    applyTmux ws (Call.newWindow s nm d) = ws ++ [⟨nm, 1⟩] := rfl

theorem applyTmux_sendKeys (ws : List Window) (s : String) (w : Nat) (p : Option Nat)
    (k : String) : applyTmux ws (Call.sendKeys s w p k) = ws := rfl

theorem applyTmux_split_at (ws : List Window) (x : Window) (s d : String) :
    applyTmux (ws ++ [x]) (Call.splitWindow s ws.length d) = ws ++ [⟨x.nm, x.panes + 1⟩] := by
  simp only [applyTmux, get?_append_len]
  exact set_append_len ws x _

theorem foldl_codex_id (c : DeployCfg) (s : String) (i : Nat) (ws : List Window) :
    List.foldl applyTmux ws
      (if c.startCodex = true then
        [Call.sendKeys s i (some 1) "codex", Call.sendKeys s i (some 1) c.codexPrompt]
       else []) = ws := by
  by_cases hcx : c.startCodex = true
  · rw [if_pos hcx]; rfl
  · rw [if_neg hcx]; rfl

theorem tmuxLoop_ok (c : DeployCfg) (s : String) :
    ∀ (ts : List String) (i0 : Nat), i0 + ts.length ≤ 26 → (tmuxLoop c s i0 ts).2 = true := by
  intro ts
  induction ts with
  | nil => intro i0 _; rfl
  | cons t ts ih =>
    intro i0 h
    have hi : i0 < 26 := by simp at h; omega
    unfold tmuxLoop
    rw [windowCalls, get_letter_lt hi]
    simp only [Option.map_some']
    exact ih (i0 + 1) (by simp at h ⊢; omega)

/-- Folding the layout calls of windows `i0, i0+1, ...` (all created with
`new-window`, possible because `i0 ≥ 1`) onto an `i0`-window session appends
one two-pane window per task, in task order. -/
theorem tmuxFold_rest (c : DeployCfg) (s : String) :
    ∀ (ts : List String) (i0 : Nat) (ws : List Window), ws.length = i0 → 1 ≤ i0 →
      i0 + ts.length ≤ 26 →
      List.foldl applyTmux ws (tmuxLoop c s i0 ts).1 = ws ++ expectedWindows c i0 ts := by
  intro ts
  induction ts with
  | nil => intro i0 ws _ _ _; simp [tmuxLoop, expectedWindows]
  | cons t ts ih =>
    intro i0 ws hlen h1 h26
    subst hlen
    have hi : ws.length < 26 := by simp at h26; omega
    have hne0 : ¬(ws.length = 0) := by omega
    unfold tmuxLoop
    rw [windowCalls, get_letter_lt hi]
    simp only [Option.map_some', if_neg hne0]
    rw [List.foldl_append, List.foldl_append]
    rw [List.foldl_cons, applyTmux_newWindow, List.foldl_cons, applyTmux_sendKeys,
        List.foldl_cons, applyTmux_split_at, List.foldl_nil]
    rw [foldl_codex_id]
    dsimp only
    have hih := ih (ws.length + 1)
        (ws ++ [⟨winNameD c.bp (letters.get ⟨ws.length, hi⟩) t, 1 + 1⟩])
        (by simp) (by omega) (by simp at h26 ⊢; omega)
    rw [hih]
    simp [expectedWindows, get_letter_lt hi, List.append_assoc]

end DA

namespace DA

/-- Replaying the whole session-layout loop from the fresh session's single
initial window produces exactly one two-pane window per task, in task
order: the first task's window is the renamed initial window. -/
theorem tmuxFold_zero (c : DeployCfg) (s : String) (ts : List String) (w0 : Window)
    (hp : w0.panes = 1) (hne : ts ≠ []) (hlen : ts.length ≤ 26) :
    List.foldl applyTmux [w0] (tmuxLoop c s 0 ts).1 = expectedWindows c 0 ts := by
  rcases ts with - | ⟨t, ts⟩
  · exact absurd rfl hne
  have h0 : (0 : Nat) < 26 := by omega
  unfold tmuxLoop
  rw [windowCalls, get_letter_lt h0]
  simp only [Option.map_some', eq_self_iff_true, if_true]
  rw [List.foldl_append, List.foldl_append]
  rw [List.foldl_cons, List.foldl_cons, List.foldl_cons, List.foldl_cons, List.foldl_nil]
  have hren : applyTmux [w0] (Call.renameWindow s 0 (winNameD c.bp (letters.get ⟨0, h0⟩) t))
      = [⟨winNameD c.bp (letters.get ⟨0, h0⟩) t, w0.panes⟩] := rfl
  have hsplit : applyTmux [(⟨winNameD c.bp (letters.get ⟨0, h0⟩) t, w0.panes⟩ : Window)]
      (Call.splitWindow s 0 (wtDirPathD c.wtRoot c.repo c.bp (letters.get ⟨0, h0⟩) t))
      = [⟨winNameD c.bp (letters.get ⟨0, h0⟩) t, w0.panes + 1⟩] := rfl
  rw [hren, applyTmux_sendKeys, applyTmux_sendKeys, hsplit]
  rw [foldl_codex_id]
  rw [hp]
  have hih := tmuxFold_rest c s ts 1 [⟨winNameD c.bp (letters.get ⟨0, h0⟩) t, 1 + 1⟩]
      (by simp) (by omega) (by simp at hlen ⊢; omega)
  rw [hih]
  simp [expectedWindows, get_letter_lt h0]

theorem countP_eq_zero_of (p : Call → Bool) (tr : List Call)
    (h : ∀ call ∈ tr, p call = false) : tr.countP p = 0 := by
  induction tr with
  | nil => rfl
  | cons x tr ih =>
    rw [List.countP_cons, h x (List.mem_cons_self _ _)]
    simpa using ih (fun call hc => h call (List.mem_cons_of_mem _ hc))

/-- Windows `i0 ≥ 1` onward are each created by exactly one `new-window`. -/
theorem tmuxLoop_newWindow_count (c : DeployCfg) (s : String) :
    ∀ (ts : List String) (i0 : Nat), 1 ≤ i0 → i0 + ts.length ≤ 26 →
      (tmuxLoop c s i0 ts).1.countP Call.isNewWindow = ts.length := by
  intro ts
  induction ts with
  | nil => intro i0 _ _; rfl
  | cons t ts ih =>
    intro i0 h1 h26
    have hi : i0 < 26 := by simp at h26; omega
    have hne0 : ¬(i0 = 0) := by omega
    unfold tmuxLoop
    rw [windowCalls, get_letter_lt hi]
    simp only [Option.map_some', if_neg hne0]
    rw [List.countP_append, List.countP_append]
    rw [ih (i0 + 1) (by omega) (by simp at h26 ⊢; omega)]
    have hwin : ([Call.newWindow s (winNameD c.bp (letters.get ⟨i0, hi⟩) t)
          (wtDirPathD c.wtRoot c.repo c.bp (letters.get ⟨i0, hi⟩) t),
        Call.sendKeys s i0 none "lazygit",
        Call.splitWindow s i0 (wtDirPathD c.wtRoot c.repo c.bp (letters.get ⟨i0, hi⟩) t)]).countP
        Call.isNewWindow = 1 := rfl
    have hcodex : (if c.startCodex = true then
          [Call.sendKeys s i0 (some 1) "codex", Call.sendKeys s i0 (some 1) c.codexPrompt]
        else []).countP Call.isNewWindow = 0 := by
      by_cases hcx : c.startCodex = true
      · rw [if_pos hcx]; rfl
      · rw [if_neg hcx]; rfl
    rw [hwin, hcodex]
    simp [List.length_cons]
    omega

/-- The first task's window is the renamed initial one: no `new-window`. -/
theorem tmuxLoop_zero_newWindow_count (c : DeployCfg) (s : String) (ts : List String)
    (hne : ts ≠ []) (hlen : ts.length ≤ 26) :
    (tmuxLoop c s 0 ts).1.countP Call.isNewWindow = ts.length - 1 := by
  rcases ts with - | ⟨t, ts⟩
  · exact absurd rfl hne
  have h0 : (0 : Nat) < 26 := by omega
  unfold tmuxLoop
  rw [windowCalls, get_letter_lt h0]
  simp only [Option.map_some', eq_self_iff_true, if_true]
  rw [List.countP_append, List.countP_append]
  rw [tmuxLoop_newWindow_count c s ts 1 (by omega) (by simp at hlen ⊢; omega)]
  have hwin : ([Call.renameWindow s 0 (winNameD c.bp (letters.get ⟨0, h0⟩) t),
        Call.sendKeys s 0 none ("cd " ++ wtDirPathD c.wtRoot c.repo c.bp (letters.get ⟨0, h0⟩) t),
        Call.sendKeys s 0 none "lazygit",
        Call.splitWindow s 0 (wtDirPathD c.wtRoot c.repo c.bp (letters.get ⟨0, h0⟩) t)]).countP
        Call.isNewWindow = 0 := rfl
  have hcodex : (if c.startCodex = true then
        [Call.sendKeys s 0 (some 1) "codex", Call.sendKeys s 0 (some 1) c.codexPrompt]
      else []).countP Call.isNewWindow = 0 := by
    by_cases hcx : c.startCodex = true
    · rw [if_pos hcx]; rfl
    · rw [if_neg hcx]; rfl
  rw [hwin, hcodex]
  simp

theorem tmuxLoop_no_newSession (c : DeployCfg) (s : String) (ts : List String) (i0 : Nat) :
    ∀ call ∈ (tmuxLoop c s i0 ts).1, Call.isNewSession call = false := by
  intro call hm
  rcases tmuxLoop_shape c s ts i0 call hm with ⟨idx, nm, rfl⟩ | ⟨nm, d, rfl⟩
    | ⟨w, p, k, rfl⟩ | ⟨w, d, rfl⟩ <;> rfl

theorem deployLoop1_no_newSession (c : DeployCfg) (ts : List String) (i : Nat)
    (st : ExtState) : ∀ call ∈ (deployLoop1 c i ts st).1, Call.isNewSession call = false := by
  intro call hm
  rcases deployLoop1_shape c ts i st call hm with ⟨b, rfl⟩ | ⟨b, d, sp, rfl⟩
    | ⟨d, rfl⟩ | ⟨d, n, rfl⟩ | ⟨d, e, rfl⟩ <;> rfl

theorem deployLoop1_no_newWindow (c : DeployCfg) (ts : List String) (i : Nat)
    (st : ExtState) : ∀ call ∈ (deployLoop1 c i ts st).1, Call.isNewWindow call = false := by
  intro call hm
  rcases deployLoop1_shape c ts i st call hm with ⟨b, rfl⟩ | ⟨b, d, sp, rfl⟩
    | ⟨d, rfl⟩ | ⟨d, n, rfl⟩ | ⟨d, e, rfl⟩ <;> rfl

end DA

namespace DA

/-- C8: the creation path builds exactly one session per run — named after
the repo unless `--session` is given — rooted at the worktree root; its
final window list is exactly one two-pane window per task in task order;
only `tasks.length - 1` windows are created with `new-window`, the first
task instead renaming the session's initial window, changing into its
worktree, starting lazygit, and splitting horizontally (the split of the
one-pane window makes the new right pane index 1). -/
theorem c8_session_layout (c : DeployCfg) (tasks : List String) (st : ExtState)
    (hne : tasks ≠ []) (hlen : tasks.length ≤ 26)
    (hs : sessionNameOf c.sessionArg c.repo ∉ st.sessions) :
    ((build_worktree_and_deploy_agents c tasks st).trace.countP Call.isNewSession = 1)
  ∧ (Call.newSession (sessionNameOf c.sessionArg c.repo) c.wtRoot
       ∈ (build_worktree_and_deploy_agents c tasks st).trace)
  ∧ (c.sessionArg = none → sessionNameOf c.sessionArg c.repo = c.repo)
  ∧ (windowsAfter (build_worktree_and_deploy_agents c tasks st).trace
       = expectedWindows c 0 tasks)
  ∧ ((build_worktree_and_deploy_agents c tasks st).trace.countP Call.isNewWindow
       = tasks.length - 1)
  ∧ (∀ t0, tasks.get? 0 = some t0 → ∃ a0, get_letter 0 = some a0
      ∧ Call.renameWindow (sessionNameOf c.sessionArg c.repo) 0 (winNameD c.bp a0 t0)
          ∈ (build_worktree_and_deploy_agents c tasks st).trace
      ∧ Call.sendKeys (sessionNameOf c.sessionArg c.repo) 0 none
          ("cd " ++ wtDirPathD c.wtRoot c.repo c.bp a0 t0)
          ∈ (build_worktree_and_deploy_agents c tasks st).trace
      ∧ Call.sendKeys (sessionNameOf c.sessionArg c.repo) 0 none "lazygit"
          ∈ (build_worktree_and_deploy_agents c tasks st).trace
      ∧ Call.splitWindow (sessionNameOf c.sessionArg c.repo) 0
          (wtDirPathD c.wtRoot c.repo c.bp a0 t0)
          ∈ (build_worktree_and_deploy_agents c tasks st).trace) := by
  have h0 : (0 : Nat) < 26 := by omega
  obtain ⟨st1, hsome⟩ := deployLoop1_isSome c tasks 0 st (by omega)
  rcases hl : deployLoop1 c 0 tasks st with ⟨tr, res⟩
  rw [hl] at hsome
  have hres : res = some st1 := hsome
  subst hres
  have hs1 : sessionNameOf c.sessionArg c.repo ∉ st1.sessions := by
    rw [deployLoop1_sessions c tasks 0 st st1 (by rw [hl])]
    exact hs
  have hok : (tmuxLoop c (sessionNameOf c.sessionArg c.repo) 0 tasks).2 = true :=
    tmuxLoop_ok c _ tasks 0 (by omega)
  have htr0 : ∀ call ∈ tr, Call.isNewSession call = false := by
    intro call hc
    exact deployLoop1_no_newSession c tasks 0 st call (by rw [hl]; exact hc)
  have htr1 : ∀ call ∈ tr, Call.isNewWindow call = false := by
    intro call hc
    exact deployLoop1_no_newWindow c tasks 0 st call (by rw [hl]; exact hc)
  have htrw : ∀ call ∈ tr, Call.isWinOp call = false := by
    intro call hc
    exact deployLoop1_no_winOp c tasks 0 st call (by rw [hl]; exact hc)
  unfold build_worktree_and_deploy_agents
  simp only [if_neg hne, hl, if_neg hs1, hok, if_true]
  refine ⟨?_, ?_, ?_, ?_, ?_, ?_⟩
  · rw [List.countP_append, List.countP_append, List.countP_append, List.countP_append]
    rw [countP_eq_zero_of _ tr htr0,
        countP_eq_zero_of _ _ (tmuxLoop_no_newSession c (sessionNameOf c.sessionArg c.repo)
          tasks 0)]
    rfl
  · exact List.mem_append_left _ (List.mem_append_left _
      (List.mem_append_right _ (List.mem_singleton_self _)))
  · intro h
    simp [sessionNameOf, h]
  · rw [windowsAfter]
    rw [List.foldl_append, List.foldl_append, List.foldl_append, List.foldl_append]
    rw [foldl_applyTmux_id [Call.mkdirRoot c.wtRoot]
        (fun call hc => by simp at hc; subst hc; rfl)]
    rw [foldl_applyTmux_id tr htrw]
    rw [show List.foldl applyTmux ([] : List Window)
          [Call.newSession (sessionNameOf c.sessionArg c.repo) c.wtRoot] = [⟨"", 1⟩] from rfl]
    rw [tmuxFold_zero c _ tasks ⟨"", 1⟩ rfl hne hlen]
    exact foldl_applyTmux_id _ (fun call hc => by simp at hc; subst hc; rfl) _
  · rw [List.countP_append, List.countP_append, List.countP_append, List.countP_append]
    rw [countP_eq_zero_of _ tr htr1,
        tmuxLoop_zero_newWindow_count c (sessionNameOf c.sessionArg c.repo) tasks hne hlen]
    simp [Call.isNewWindow, List.countP_cons, List.countP_nil]
  · intro t0 ht0
    rcases tasks with - | ⟨t, ts⟩
    · exact absurd rfl hne
    have ht0' : t = t0 := Option.some.inj ht0
    subst ht0'
    refine ⟨letters.get ⟨0, h0⟩, get_letter_lt h0, ?_⟩
    have hl2 : ∀ call, call ∈
        [Call.renameWindow (sessionNameOf c.sessionArg c.repo) 0
           (winNameD c.bp (letters.get ⟨0, h0⟩) t),
         Call.sendKeys (sessionNameOf c.sessionArg c.repo) 0 none
           ("cd " ++ wtDirPathD c.wtRoot c.repo c.bp (letters.get ⟨0, h0⟩) t),
         Call.sendKeys (sessionNameOf c.sessionArg c.repo) 0 none "lazygit",
         Call.splitWindow (sessionNameOf c.sessionArg c.repo) 0
           (wtDirPathD c.wtRoot c.repo c.bp (letters.get ⟨0, h0⟩) t)] →
        call ∈ (tmuxLoop c (sessionNameOf c.sessionArg c.repo) 0 (t :: ts)).1 := by
      intro call hc
      unfold tmuxLoop
      rw [windowCalls, get_letter_lt h0]
      simp only [Option.map_some', eq_self_iff_true, if_true]
      exact List.mem_append_left _ (List.mem_append_left _ hc)
    refine ⟨?_, ?_, ?_, ?_⟩ <;>
      exact List.mem_append_left _ (List.mem_append_right _ (hl2 _ (by simp)))

end DA

namespace DA

/-- C8 witness: a two-task deploy from a clean target creates one session
whose windows are exactly the two task windows, two panes each, with a
single `new-window` call. -/
theorem c8_witness :
    ((["alpha", "beta"] : List String) ≠ []
      ∧ (["alpha", "beta"] : List String).length ≤ 26
      ∧ sessionNameOf cfgA.sessionArg cfgA.repo ∉ st0.sessions)
  ∧ ((build_worktree_and_deploy_agents cfgA ["alpha", "beta"] st0).trace.countP
        Call.isNewSession = 1)
  ∧ (windowsAfter (build_worktree_and_deploy_agents cfgA ["alpha", "beta"] st0).trace
      = expectedWindows cfgA 0 ["alpha", "beta"])
  ∧ ((build_worktree_and_deploy_agents cfgA ["alpha", "beta"] st0).trace.countP
        Call.isNewWindow = (["alpha", "beta"] : List String).length - 1) :=
  ⟨⟨by decide, by decide, by decide⟩,
   (c8_session_layout cfgA ["alpha", "beta"] st0 (by decide) (by decide) (by decide)).1,
   (c8_session_layout cfgA ["alpha", "beta"] st0 (by decide) (by decide) (by decide)).2.2.2.1,
   (c8_session_layout cfgA ["alpha", "beta"] st0 (by decide) (by decide)
      (by decide)).2.2.2.2.1⟩

end DA
